import Mathlib

/-!
Verification development for the tlab-analysis repository.

The binary codec (`trpl.py`) is embedded at the byte level: a raw file is a
`List Nat` of byte values.  Scalar values of the sample table are embedded as
naturals: `time` and `wavelength` carry the 32-bit pattern of the stored
nonnegative `float32` value (on nonnegative finite floats, bit-pattern order
and equality agree with numeric order and equality, and `numpy`
serialization round-trips the pattern exactly), and `intensity` carries the
nonnegative integer value of the intensity column.

The analysis functions of `utils.py` operate on exact rationals in place of
IEEE doubles; every statement proved about them is structural (indexing,
lengths, branch selection) and does not depend on rounding.
-/

namespace Tlab

/-- One row of the measurement table: a (time, wavelength, intensity) reading. -/
structure Sample where
  time : Nat
  wavelength : Nat
  intensity : Nat
deriving DecidableEq, Repr

/-- Embeds `TRPLData` (trpl.py): the sample table `df` (kept as a list of rows,
which forces the three columns to have one common length, exactly as a
`pandas.DataFrame` does), the 64 header bytes and the four metadata lines
(kept as raw byte strings). -/
structure TRPLData where
  samples : List Sample
  header : List Nat
  metadata : List (List Nat)
deriving DecidableEq

/-- Instrument constant from `TRPLData.u8167`: `sector_size = 1024`. -/
def sector_size : Nat := 1024

/-- Instrument constant from `TRPLData.u8167`: `wavelength_resolution = 640`. -/
def wavelength_resolution : Nat := 640

/-- Instrument constant from `TRPLData.u8167`: `time_resolution = 480`. -/
def time_resolution : Nat := 480

/-- Instrument constant from `TRPLData.u8167`: `num_sector_intensity = 600`. -/
def num_sector_intensity : Nat := 600

/-- Instrument constant from `TRPLData.u8167`: `num_sector_wavelength = 4`. -/
def num_sector_wavelength : Nat := 4

/-- Instrument constant from `TRPLData.u8167`: `num_sector_time = 4`. -/
def num_sector_time : Nat := 4

/-- The `time` column of the sample table (`TRPLData.time`). -/
def TRPLData.time (d : TRPLData) : List Nat := d.samples.map Sample.time

/-- The `wavelength` column of the sample table (`TRPLData.wavelength`). -/
def TRPLData.wavelength (d : TRPLData) : List Nat := d.samples.map Sample.wavelength

/-- The `intensity` column of the sample table (`TRPLData.intensity`). -/
def TRPLData.intensity (d : TRPLData) : List Nat := d.samples.map Sample.intensity

/-- Little-endian byte serialization of one `uint16` value, as performed by
`self.intensity.to_numpy(np.uint16).tobytes("C")`; the `np.uint16` conversion
wraps modulo 2^16, which the byte arithmetic below realizes directly. -/
def u16bytes (v : Nat) : List Nat := [v % 256, v / 256 % 256]

/-- Little-endian byte serialization of one 32-bit word (the bit pattern of a
`float32` value), as performed by `.astype(np.float32).tobytes("C")`. -/
def f32bytes (w : Nat) : List Nat :=
  [w % 256, w / 256 % 256, w / 2 ^ 16 % 256, w / 2 ^ 24 % 256]

/-- Inverse of `u16bytes` on a byte stream: `np.frombuffer(_, dtype=np.uint16)`.
The caller checks that the length is a multiple of 2, as `frombuffer` does. -/
def bytesToU16 : List Nat → List Nat
  | b0 :: b1 :: rest => (b0 + 256 * b1) :: bytesToU16 rest
  | _ => []

/-- Inverse of `f32bytes` on a byte stream: `np.frombuffer(_, dtype=np.float32)`.
The caller checks that the length is a multiple of 4, as `frombuffer` does. -/
def bytesToF32 : List Nat → List Nat
  | b0 :: b1 :: b2 :: b3 :: rest =>
      (b0 + 256 * (b1 + 256 * (b2 + 256 * b3))) :: bytesToF32 rest
  | _ => []

/-- Embeds `bytes.ljust(n, b"\x00")[:n]`: right-pad with zero bytes to length
`n`, truncating if longer. -/
def ljustTrunc (n : Nat) (l : List Nat) : List Nat :=
  (l ++ List.replicate (n - l.length) 0).take n

/-- Embeds `pandas.Series.unique`: the distinct values of a list in order of
first appearance.  `uniqueAux seen l` drops the values already in `seen`. -/
def uniqueAux (seen : List Nat) : List Nat → List Nat
  | [] => []
  | a :: l => if a ∈ seen then uniqueAux seen l else a :: uniqueAux (a :: seen) l

/-- Embeds `pandas.Series.unique` (used by `to_raw_binary` and
`to_streak_image`): distinct values in order of first appearance. -/
def uniqueList (l : List Nat) : List Nat := uniqueAux [] l

/-- Embeds `TRPLData.to_raw_binary` (trpl.py lines 314-342): header bytes,
the concatenated metadata lines, then the intensity column as `uint16`
values padded (or truncated) to 600 sectors, the distinct wavelength values
as `float32` padded (or truncated) to 4 sectors, and the distinct time
values likewise. -/
def TRPLData.to_raw_binary (d : TRPLData) : List Nat :=
  d.header
    ++ d.metadata.flatten
    ++ ljustTrunc (sector_size * num_sector_intensity) (d.intensity.flatMap u16bytes)
    ++ ljustTrunc (sector_size * num_sector_wavelength)
        ((uniqueList d.wavelength).flatMap f32bytes)
    ++ ljustTrunc (sector_size * num_sector_time)
        ((uniqueList d.time).flatMap f32bytes)

/-- Embeds `io.BufferedIOBase.readline` on a byte list: read up to and
including the first newline byte (10). -/
def readLine : List Nat → List Nat × List Nat
  | [] => ([], [])
  | b :: bs =>
      if b = 10 then ([b], bs)
      else
        let p := readLine bs
        (b :: p.1, p.2)

/-- Embeds the decoder `_read_file` (trpl.py lines 68-87) on the byte contents
of the file: 64 header bytes, four `readline` calls for the metadata, then
`frombuffer` reads of the intensity (600 sectors, `uint16`), wavelength
(4 sectors, `float32`, first 640 kept) and time (4 sectors, `float32`, first
480 kept) blocks, and the sample table built from
`np.repeat(time, len(wavelength))`, `np.tile(wavelength, len(time))` and the
intensity values.  `frombuffer` fails when a block length is not a multiple
of the item size, and the `DataFrame` constructor fails when the three
columns do not have one common length; both failures are `none` here. -/
def read_file (bs : List Nat) : Option TRPLData :=
  let header := bs.take 64
  let r0 := bs.drop 64
  let l1 := readLine r0
  let l2 := readLine l1.2
  let l3 := readLine l2.2
  let l4 := readLine l3.2
  let body := l4.2
  let ibytes := body.take (sector_size * num_sector_intensity)
  let rest := body.drop (sector_size * num_sector_intensity)
  let wbytes := rest.take (sector_size * num_sector_wavelength)
  let tbytes := (rest.drop (sector_size * num_sector_wavelength)).take
    (sector_size * num_sector_time)
  if 2 ∣ ibytes.length ∧ 4 ∣ wbytes.length ∧ 4 ∣ tbytes.length then
    let intensity := bytesToU16 ibytes
    let wavelength := (bytesToF32 wbytes).take wavelength_resolution
    let time := (bytesToF32 tbytes).take time_resolution
    let timeColumn := time.flatMap fun t => List.replicate wavelength.length t
    let wlColumn := (List.replicate time.length wavelength).flatten
    if timeColumn.length = intensity.length ∧ wlColumn.length = intensity.length then
      some ⟨List.zipWith3 Sample.mk timeColumn wlColumn intensity,
        header, [l1.1, l2.1, l3.1, l4.1]⟩
    else none
  else none

/-- Embeds `TRPLData.__eq__` (trpl.py lines 233-243): elementwise comparison
of the sample tables together with header and metadata equality.  Comparing
two frames whose shapes differ raises in pandas ("Can only compare
identically-labeled DataFrame objects"), which surfaces here as `.error`. -/
def TRPLData.eq (d o : TRPLData) : Except String Bool :=
  if d.samples.length = o.samples.length then
    .ok (decide (d.samples = o.samples) && decide (d.header = o.header)
      && decide (d.metadata = o.metadata))
  else .error "Can only compare identically-labeled DataFrame objects"

/-- The canonical full rectangular sample table over time axis `T`, wavelength
axis `W` and row-major intensities `I`: row `i` is
`(T[i / len(W)], W[i % len(W)], I[i])`, built from the repeated time column
and the tiled wavelength column exactly as the decoder builds its frame. -/
def gridSamples (T W I : List Nat) : List Sample :=
  List.zipWith3 Sample.mk (T.flatMap fun t => List.replicate W.length t)
    ((List.replicate T.length W).flatten) I

/-- Right-padding with zero values to length `n` (the value-level image of the
zero-byte padding the codec performs). -/
def padZ (n : Nat) (l : List Nat) : List Nat := l ++ List.replicate (n - l.length) 0

/-- A well-formed metadata line: some newline-free text followed by the
terminating newline byte, which is what `readline` needs in order to hand
back exactly this line. -/
def lineWF (l : List Nat) : Prop := ∃ m, l = m ++ [10] ∧ 10 ∉ m

/-- The sort key of `df.sort_values(["time", "wavelength"])` in
`to_streak_image`: ascending time, ties broken by ascending wavelength.
The data-model invariant makes (time, wavelength) pairs unique, so any
comparison sort yields one and the same result. -/
def sampleLE (a b : Sample) : Prop :=
  a.time < b.time ∨ (a.time = b.time ∧ a.wavelength ≤ b.wavelength)

instance sampleLE.instDec : DecidableRel sampleLE := fun a b => by
  unfold sampleLE
  infer_instance

/-- Row-major reshape of a flat list into `t` rows of `w` entries, the shape
produced by `numpy.reshape(t, w)`; the caller checks the element count. -/
def chunkRows (w : Nat) : Nat → List Nat → List (List Nat)
  | 0, _ => []
  | t + 1, l => l.take w :: chunkRows w t (l.drop w)

/-- Embeds `TRPLData.to_streak_image` (trpl.py lines 278-312): sort the sample
table by (time, wavelength) ascending, take the intensity column and reshape
it into distinct-time-count rows of distinct-wavelength-count entries.
`numpy.reshape` raises unless the element count equals the product of the
two distinct counts; that failure is `none` here. -/
def TRPLData.to_streak_image (d : TRPLData) : Option (List (List Nat)) :=
  let sorted := (List.insertionSort sampleLE d.samples).map Sample.intensity
  let t := (uniqueList d.time).length
  let w := (uniqueList d.wavelength).length
  if sorted.length = t * w then some (chunkRows w t sorted) else none

/-- The row-major intensity column of the doctest dataset of `TRPLData`. -/
def exampleIntensities : List Nat := [44, 47, 64, 67, 67, 9, 83, 21, 36]

/-- The concrete 3-by-3 dataset of the spec scenario: times 0, 5, 10 and
wavelengths 400, 450, 500 (stored words), intensities in row-major order,
with a 64-byte header and four newline-terminated metadata lines. -/
def exampleData : TRPLData :=
  ⟨gridSamples [0, 5, 10] [400, 450, 500] exampleIntensities,
    List.replicate 64 0, [[10], [10], [10], [10]]⟩

/-- A one-sample dataset, used to exercise comparisons between sample tables
of different shapes. -/
def smallData : TRPLData :=
  ⟨gridSamples [0] [400] [5], List.replicate 64 0, [[10], [10], [10], [10]]⟩

/-- A full-capacity time axis of 480 distinct stored words. -/
def axis480 : List Nat := List.range 480

/-- A full-capacity wavelength axis of 640 distinct stored words. -/
def axis640 : List Nat := (List.range 640).map fun i => i + 1000

/-- A full 480 x 640 row-major intensity column. -/
def flat307200 : List Nat := List.replicate 307200 7

/-- A dataset with exactly 480 distinct times and 640 distinct wavelengths in
canonical grid order: the shape on which encoding is lossless. -/
def witnessData : TRPLData :=
  ⟨gridSamples axis480 axis640 flat307200, List.replicate 64 0, [[10], [10], [10], [10]]⟩

/-- Embeds `validate_xdata_and_ydata` (utils.py lines 16-41): error when the
two sequences differ in length, then error when they are empty. -/
def validate_xdata_and_ydata (xdata ydata : List ℚ) : Except String Unit :=
  if ¬ xdata.length = ydata.length then
    .error "The length of `xdata` and `ydata` must be the same"
  else if xdata.length = 0 ∨ ydata.length = 0 then
    .error "`xdata` and `ydata` must not be empty"
  else .ok ()

/-- The input-validation stage of `find_peaks` (utils.py lines 99-168): the
body begins directly with the spline construction
`interpolate.make_smoothing_spline(xdata, ydata)` and `validate_xdata_and_ydata`
is invoked nowhere in the function, so `find_peaks` itself raises no
validation error on any input (mismatched or empty sequences can only fail
later, inside the scipy calls). -/
def find_peaks_validation (xdata ydata : List ℚ) : Except String Unit :=
  Except.ok ()

/-- The input-validation stage of `find_scdc` (utils.py line 337): its first
statement is `validate_xdata_and_ydata(xdata, ydata)`. -/
def find_scdc_validation (xdata ydata : List ℚ) : Except String Unit :=
  validate_xdata_and_ydata xdata ydata

/-- The input-validation stage of `determine_fit_range_dc` (utils.py
line 394): its first statement is `validate_xdata_and_ydata(xdata, ydata)`. -/
def determine_fit_range_dc_validation (xdata ydata : List ℚ) : Except String Unit :=
  validate_xdata_and_ydata xdata ydata

/-- The input-validation stage of `curve_fit` (utils.py line 456): its first
statement is `validate_xdata_and_ydata(xdata, ydata)`. -/
def curve_fit_validation (xdata ydata : List ℚ) : Except String Unit :=
  validate_xdata_and_ydata xdata ydata

/-- The mean of a list of rationals (the callers below only apply it to
nonempty selections; pandas yields NaN on an empty one and every caller
models that case separately). -/
def listMean (l : List ℚ) : ℚ := l.sum / l.length

/-- The trailing window of (at most) `w` entries ending at position `i`: the
window of `Series.rolling(w)` at `i`. -/
def windowAt (w : Nat) (y : List ℚ) (i : Nat) : List ℚ :=
  (y.take (i + 1)).drop (i + 1 - w)

/-- The effective integer window size of `smooth` (utils.py lines 71-76):
a fraction of the sequence length when `0 < window <= 1`, otherwise the
truncation `int(window)` (the arguments are nonnegative there, so truncation
is the floor). -/
def effWindow (n : Nat) (window : ℚ) : Int :=
  if 0 < window ∧ window ≤ 1 then ⌊(n : ℚ) * window⌋ else ⌊window⌋

/-- One entry of the centered rolling mean with `min_periods=1`: for window
`w`, pandas centers the window of position `i` on [i - w/2, i + (w-1)/2]
(integer division), clipped to the sequence, so the entry is the mean of the
trailing window of `w` entries ending at position i + (w-1)/2. -/
def rollingCenterMeanAt (w : Nat) (x : List ℚ) (i : Nat) : ℚ :=
  listMean (windowAt w x (i + (w - 1) / 2))

/-- Embeds `smooth` (utils.py lines 44-77): reject negative windows, turn the
window into a sample count (`effWindow`), then take the centered rolling mean
with `min_periods=1`.  When the effective window is zero (for example a
positive fractional `window` with `int(len(x) * window) == 0`), pandas
rejects the rolling call because `min_periods=1` exceeds the window; that
failure is the second `.error` here. -/
def smooth (x : List ℚ) (window : ℚ) : Except String (List ℚ) :=
  if window < 0 then .error "`window` must be a positive number"
  else
    let w : Int := effWindow x.length window
    if w ≤ 0 then .error "min_periods 1 must be <= window 0"
    else .ok ((List.range x.length).map fun i => rollingCenterMeanAt w.toNat x i)

/-- The largest value of a list (0 for the empty list; callers guard). -/
def listMaxD : List ℚ → ℚ
  | [] => 0
  | [a] => a
  | a :: b :: t => max a (listMaxD (b :: t))

/-- Embeds `Series.argmax` / `numpy.argmax` on a NaN-free series: the position
of the first occurrence of the maximum (0 on the empty list; callers guard). -/
def argmaxIdx : List ℚ → Nat
  | [] => 0
  | [_] => 0
  | a :: b :: t => if listMaxD (b :: t) ≤ a then 0 else argmaxIdx (b :: t) + 1

/-- Embeds `Series.shift(m)`: the first `m` entries become missing (NaN), the
remaining entries are the original values, and the tail is cut off so the
length is preserved. -/
def shiftOpt (m : Nat) (y : List ℚ) : List (Option ℚ) :=
  (List.replicate m none ++ y.map some).take y.length

/-- The largest present value of a series with missing entries (the
NaN-skipping maximum pandas computes); `none` when every entry is missing. -/
def optMax : List (Option ℚ) → Option ℚ
  | [] => none
  | none :: t => optMax t
  | some a :: t =>
      match optMax t with
      | none => some a
      | some b => some (max a b)

/-- The position of the first entry satisfying the predicate (the list length
when none does; callers guard). -/
def idxOfFirst (p : Option ℚ → Bool) : List (Option ℚ) → Nat
  | [] => 0
  | a :: t => if p a then 0 else idxOfFirst p t + 1

/-- Embeds `Series.argmax` on a series with missing entries: the position of
the first occurrence of the NaN-skipping maximum (callers guard the
all-missing case). -/
def argmaxOptIdx (l : List (Option ℚ)) : Nat :=
  idxOfFirst (fun a => decide (a = optMax l) && decide (a ≠ none)) l

/-- Embeds the left-bound selection of `determine_fit_range_dc` (utils.py
lines 400-401) on the resampled spline curve (_x, _y):
`left = df["x"][int(df["y"].shift(2).argmax())]`.  The all-missing case
(fewer than three resampled points; `spline_size` is 1000 in the source) has
no argmax position and is `none` here, as pandas fails on it. -/
def fit_range_left (x y : List ℚ) : Option ℚ :=
  let s := shiftOpt 2 y
  match optMax s with
  | none => none
  | some _ => some (x.getD (argmaxOptIdx s) 0)

/-- Modelled from the spec's words, for comparison with `fit_range_left`:
"left = x-coordinate of the resampled maximum shifted two index positions
earlier", that is, `left = x[argmax(y_resampled) - 2]`. -/
def fit_range_left_spec (x y : List ℚ) : Option ℚ :=
  some (x.getD (argmaxIdx y - 2) 0)

/-- Embeds `bisect.bisect_left` on a sorted list: the number of entries
strictly below `v`, which is the leftmost insertion point of `v`. -/
def bisect_left (l : List ℚ) (v : ℚ) : Nat :=
  (l.filter fun a => decide (a < v)).length

/-- Embeds the half-height bound selection of `find_peaks` (utils.py lines
156-167) for one detected peak: `roots` is the sorted root list of the spline
minus the half level, `xs` the resampled grid of `spline_size` points and `p`
the sampled peak position.  Source:
`_idx = bisect.bisect_left(_roots, x[peak])`;
`x0 = _roots[_idx - 1] if _idx > 0 else x[0]`;
`x1 = _roots[_idx] if _idx < len(x) else x[-1]`.
The `x1` guard compares `_idx` against `len(x)` rather than `len(_roots)`, so
whenever `_idx` is a valid grid position but past the end of the root list,
`_roots[_idx]` raises IndexError, which surfaces as `.error` here. -/
def peak_half_bounds (roots xs : List ℚ) (p : Nat) : Except String (ℚ × ℚ) :=
  let xp := xs.getD p 0
  let idx := bisect_left roots xp
  let x0 := if 0 < idx then roots.getD (idx - 1) 0 else xs.getD 0 0
  if idx < xs.length then
    match roots.get? idx with
    | some r => .ok (x0, r)
    | none => .error "IndexError: list index out of range"
  else .ok (x0, xs.getD (xs.length - 1) 0)

/-- The resampled grid positions used by `find_peaks` and
`determine_fit_range_dc` (`np.linspace` of `spline_size = 1000` points),
with the grid values taken at integer positions. -/
def grid1000 : List ℚ := (List.range 1000).map fun i => ((i : Nat) : ℚ)

/-- The sample variance (`ddof=1`) of a window; `rolling.std` is its square
root. -/
def listVarSample (l : List ℚ) : ℚ :=
  (l.map fun a => (a - listMean l) ^ 2).sum / ((l.length : ℚ) - 1)

/-- Embeds the Boolean `y[j] > sup_noise[i]` of `find_scdc` (utils.py lines
341-342), where `sup_noise = rolling.mean() + k * rolling.std()` over a
trailing window of `w` samples.  `rolling` leaves the first `w - 1` positions
missing, `std` is missing for windows of fewer than two entries, and any
comparison against a missing value is false.  The square root inside `std` is
eliminated by comparing squares, which is exact for `k ≥ 0` (the source
default is `_k = 2`): `y[j] - mean > k * sqrt(var)` iff `y[j] - mean > 0`
and `(y[j] - mean)^2 > k^2 * var`. -/
def exceedsNoiseCeil (w : Nat) (k : ℚ) (y : List ℚ) (j i : Nat) : Bool :=
  if w ≤ i + 1 ∧ 2 ≤ w ∧ i < y.length ∧ j < y.length then
    let win := windowAt w y i
    let a := y.getD j 0 - listMean win
    decide (0 < a) && decide (k ^ 2 * listVarSample win < a ^ 2)
  else false

/-- Embeds the x-threshold of `find_scdc` (utils.py lines 343-344):
`df["x"][df["y"].gt(sup_noise).shift(-1, fill_value=False)].min()` — the
least x value over the positions whose following sample exceeds its own noise
ceiling (`shift(-1)` places the mask value of position i+1 at position i, and
the final position gets the fill value false).  `none` when nothing is
selected: the pandas min of an empty selection is NaN. -/
def selectedXmin (x y : List ℚ) (w : Nat) (k : ℚ) : Option ℚ :=
  (((List.range y.length).filter fun i => exceedsNoiseCeil w k y (i + 1) (i + 1)).map
    fun i => x.getD i 0).min?

/-- The background sample positions of `find_scdc` (utils.py lines 343-345):
every position whose x value is at most the selected threshold; empty when
the threshold is missing, since comparisons against NaN are false. -/
def backgroundIdx (x y : List ℚ) (w : Nat) (k : ℚ) : List Nat :=
  match selectedXmin x y w k with
  | none => []
  | some m => (List.range y.length).filter fun i => decide (x.getD i 0 ≤ m)

/-- Modelled from the spec's words, for comparison with `backgroundIdx`:
"the earliest index r such that y[r+1] > noise_ceiling[r]" delimits the
background, which is "all samples with x ≤ x[r]" (empty when no index
crosses). -/
def backgroundIdx_spec (x y : List ℚ) (w : Nat) (k : ℚ) : List Nat :=
  match (List.range y.length).find? fun r => exceedsNoiseCeil w k y (r + 1) r with
  | none => []
  | some r => (List.range y.length).filter fun i => decide (x.getD i 0 ≤ x.getD r 0)

/-- Embeds `Series.quantile(q)` with the default linear interpolation on a
nonempty series: with the values sorted ascending and h = q * (n - 1), the
result is s[floor(h)] + (h - floor(h)) * (s[floor(h) + 1] - s[floor(h)])
(the last term vanishing when floor(h) is the final position).  `none` on the
empty series, where pandas yields NaN. -/
def quantileQ (q : ℚ) (l : List ℚ) : Option ℚ :=
  match l with
  | [] => none
  | _ :: _ =>
      let s := List.insertionSort (· ≤ ·) l
      let h : ℚ := q * ((l.length : ℚ) - 1)
      let j : Nat := (⌊h⌋).toNat
      some (s.getD j 0 + (h - (j : ℚ)) * (s.getD (j + 1) (s.getD j 0) - s.getD j 0))

/-- Embeds the baseline of `find_scdc` (utils.py lines 346-348): the mean of
the background values lying between the background's 5th and 95th percentiles
(inclusive); missing when the background is empty or when no value survives
the trim, since the pandas mean of an empty selection is NaN. -/
def scdcBaseline (x y : List ℚ) (w : Nat) (k : ℚ) : Option ℚ :=
  let bg := (backgroundIdx x y w k).map fun i => y.getD i 0
  match quantileQ (1 / 20) bg, quantileQ (19 / 20) bg with
  | some lo, some hi =>
      match bg.filter fun b => decide (lo ≤ b ∧ b ≤ hi) with
      | [] => none
      | b :: bs => some (listMean (b :: bs))
  | _, _ => none

/-- Embeds the final index selection of `find_scdc` (utils.py lines 350-352):
the largest position lying strictly before the argmax of y whose y value is
strictly below the baseline (a missing baseline admits no position); `none`
when no position qualifies — numpy's max of the empty selection raises. -/
def scdcIndex (x y : List ℚ) (w : Nat) (k : ℚ) : Option Nat :=
  ((List.range y.length).filter fun i =>
    decide (i < argmaxIdx y) &&
      match scdcBaseline x y w k with
      | none => false
      | some b => decide (y.getD i 0 < b)).max?

/-- Embeds `find_scdc` (utils.py lines 301-353) with its keyword parameters
`_window` and `_k` (defaults 10 and 2; see `exceedsNoiseCeil` for the `k ≥ 0`
encoding): validate the inputs, locate the background and its baseline, pick
the start position and return its coordinates.  An empty final selection
raises in numpy, which surfaces as the second `.error`. -/
def find_scdc (xdata ydata : List ℚ) (w : Nat) (k : ℚ) : Except String (ℚ × ℚ) :=
  match validate_xdata_and_ydata xdata ydata with
  | .error e => .error e
  | .ok _ =>
      match scdcIndex xdata ydata w k with
      | none => .error "zero-size array to reduction operation maximum which has no identity"
      | some i => .ok (xdata.getD i 0, ydata.getD i 0)

theorem length_ljustTrunc (n : Nat) (l : List Nat) : (ljustTrunc n l).length = n := by
  simp only [ljustTrunc, List.length_take, List.length_append, List.length_replicate]
  omega

theorem ljustTrunc_of_le {n : Nat} {l : List Nat} (h : l.length ≤ n) :
    ljustTrunc n l = l ++ List.replicate (n - l.length) 0 := by
  unfold ljustTrunc
  have hlen : (l ++ List.replicate (n - l.length) 0).length ≤ n := by
    simp only [List.length_append, List.length_replicate]
    omega
  exact List.take_of_length_le hlen

theorem length_flatMap_u16 (I : List Nat) : (I.flatMap u16bytes).length = 2 * I.length := by
  induction I with
  | nil => rfl
  | cons v I ih => simp [List.flatMap_cons, u16bytes, ih]; omega

theorem length_flatMap_f32 (W : List Nat) : (W.flatMap f32bytes).length = 4 * W.length := by
  induction W with
  | nil => rfl
  | cons v W ih => simp [List.flatMap_cons, f32bytes, ih]; omega

theorem bytesToU16_append (l2 : List Nat) :
    ∀ l1 : List Nat, 2 ∣ l1.length → bytesToU16 (l1 ++ l2) = bytesToU16 l1 ++ bytesToU16 l2
  | [], _ => rfl
  | [b], h => by simp only [List.length_cons, List.length_nil] at h; omega
  | b0 :: b1 :: rest, h => by
      simp only [List.length_cons] at h
      simp only [List.cons_append, bytesToU16, List.cons.injEq, true_and]
      exact bytesToU16_append l2 rest (by omega)

theorem bytesToU16_flatMap {I : List Nat} (h : ∀ v ∈ I, v < 2 ^ 16) :
    bytesToU16 (I.flatMap u16bytes) = I := by
  induction I with
  | nil => rfl
  | cons v I ih =>
      have hv : v < 2 ^ 16 := h v (List.mem_cons_self v I)
      have hI := ih fun w hw => h w (List.mem_cons_of_mem v hw)
      rw [List.flatMap_cons]
      have hu : u16bytes v ++ I.flatMap u16bytes
          = v % 256 :: v / 256 % 256 :: I.flatMap u16bytes := rfl
      rw [hu, bytesToU16, hI]
      congr 1
      omega

theorem bytesToU16_replicate (k : Nat) :
    bytesToU16 (List.replicate (2 * k) 0) = List.replicate k 0 := by
  induction k with
  | zero => rfl
  | succ k ih =>
      have : 2 * (k + 1) = (2 * k) + 1 + 1 := by omega
      rw [this, List.replicate_succ, List.replicate_succ, bytesToU16, List.replicate_succ, ih]

theorem bytesToF32_append (l2 : List Nat) :
    ∀ l1 : List Nat, 4 ∣ l1.length → bytesToF32 (l1 ++ l2) = bytesToF32 l1 ++ bytesToF32 l2
  | [], _ => rfl
  | [b], h => by simp only [List.length_cons, List.length_nil] at h; omega
  | [b, c], h => by simp only [List.length_cons, List.length_nil] at h; omega
  | [b, c, e], h => by simp only [List.length_cons, List.length_nil] at h; omega
  | b0 :: b1 :: b2 :: b3 :: rest, h => by
      simp only [List.length_cons] at h
      simp only [List.cons_append, bytesToF32, List.cons.injEq, true_and]
      exact bytesToF32_append l2 rest (by omega)

theorem bytesToF32_flatMap {W : List Nat} (h : ∀ v ∈ W, v < 2 ^ 32) :
    bytesToF32 (W.flatMap f32bytes) = W := by
  induction W with
  | nil => rfl
  | cons v W ih =>
      have hv : v < 2 ^ 32 := h v (List.mem_cons_self v W)
      have hW := ih fun w hw => h w (List.mem_cons_of_mem v hw)
      rw [List.flatMap_cons]
      have hu : f32bytes v ++ W.flatMap f32bytes
          = v % 256 :: v / 256 % 256 :: v / 2 ^ 16 % 256 :: v / 2 ^ 24 % 256
            :: W.flatMap f32bytes := rfl
      rw [hu, bytesToF32, hW]
      congr 1
      omega

theorem bytesToF32_replicate (k : Nat) :
    bytesToF32 (List.replicate (4 * k) 0) = List.replicate k 0 := by
  induction k with
  | zero => rfl
  | succ k ih =>
      have : 4 * (k + 1) = (4 * k) + 1 + 1 + 1 + 1 := by omega
      rw [this]
      simp only [List.replicate_succ, bytesToF32]
      rw [ih]

theorem readLine_append {l : List Nat} (r : List Nat) (h : lineWF l) :
    readLine (l ++ r) = (l, r) := by
  obtain ⟨m, rfl, hm⟩ := h
  induction m with
  | nil => simp [readLine]
  | cons b m ih =>
      have hb : b ≠ 10 := fun hb => hm (hb ▸ List.mem_cons_self b m)
      have hm' : 10 ∉ m := fun hx => hm (List.mem_cons_of_mem b hx)
      have ih' : readLine (m ++ 10 :: r) = (m ++ [10], r) := by
        have h2 := ih hm'
        rwa [List.append_assoc] at h2
      simp only [List.cons_append, readLine, if_neg hb]
      simp [ih']

theorem take_append_replicate {m : List Nat} {n k : Nat} (c : Nat)
    (h1 : m.length ≤ n) (h2 : n - m.length ≤ k) :
    (m ++ List.replicate k c).take n = m ++ List.replicate (n - m.length) c := by
  obtain ⟨i, rfl⟩ : ∃ i, n = m.length + i := ⟨n - m.length, by omega⟩
  rw [List.take_append, List.take_replicate]
  have hmin : i ⊓ k = i := Nat.min_eq_left (by omega)
  have hlen : m.length + i - m.length = i := by omega
  rw [hmin, hlen]

theorem uniqueAux_eq_nil {l seen : List Nat} (h : ∀ b ∈ l, b ∈ seen) :
    uniqueAux seen l = [] := by
  induction l with
  | nil => rfl
  | cons a l ih =>
      have ha : a ∈ seen := h a (List.mem_cons_self a l)
      simp only [uniqueAux, if_pos ha]
      exact ih fun b hb => h b (List.mem_cons_of_mem a hb)

theorem uniqueAux_append_of_subset {r : List Nat} :
    ∀ {l seen : List Nat}, (∀ b ∈ r, b ∈ l ∨ b ∈ seen) →
      uniqueAux seen (l ++ r) = uniqueAux seen l := by
  intro l
  induction l with
  | nil =>
      intro seen h
      exact uniqueAux_eq_nil fun b hb => (h b hb).resolve_left (by simp)
  | cons a l ih =>
      intro seen h
      simp only [List.cons_append, uniqueAux]
      by_cases ha : a ∈ seen
      · rw [if_pos ha, if_pos ha]
        exact ih fun b hb => by
          rcases h b hb with hbl | hbs
          · rcases List.mem_cons.mp hbl with rfl | hbl
            · exact Or.inr ha
            · exact Or.inl hbl
          · exact Or.inr hbs
      · rw [if_neg ha, if_neg ha]
        congr 1
        exact ih fun b hb => by
          rcases h b hb with hbl | hbs
          · rcases List.mem_cons.mp hbl with rfl | hbl
            · exact Or.inr (List.mem_cons_self b _)
            · exact Or.inl hbl
          · exact Or.inr (List.mem_cons_of_mem a hbs)

theorem uniqueAux_of_nodup :
    ∀ {l seen : List Nat}, l.Nodup → (∀ b ∈ l, b ∉ seen) → uniqueAux seen l = l := by
  intro l
  induction l with
  | nil => intro seen _ _; rfl
  | cons a l ih =>
      intro seen hnd hs
      have ha : a ∉ seen := hs a (List.mem_cons_self a l)
      simp only [uniqueAux, if_neg ha]
      congr 1
      refine ih (List.Nodup.of_cons hnd) fun b hb => ?_
      intro hbs
      rcases List.mem_cons.mp hbs with rfl | hbs
      · exact (List.nodup_cons.mp hnd).1 hb
      · exact hs b (List.mem_cons_of_mem a hb) hbs

theorem uniqueList_of_nodup {l : List Nat} (h : l.Nodup) : uniqueList l = l :=
  uniqueAux_of_nodup h (by simp)

theorem uniqueAux_replicate_mem {a : Nat} {seen : List Nat} (ha : a ∈ seen) :
    ∀ (j : Nat) (l : List Nat), uniqueAux seen (List.replicate j a ++ l) = uniqueAux seen l
  | 0, l => rfl
  | j + 1, l => by
      simp only [List.replicate_succ, List.cons_append, uniqueAux, if_pos ha]
      exact uniqueAux_replicate_mem ha j l

theorem mem_flatMap_replicate {T : List Nat} {k : Nat} {b : Nat}
    (hb : b ∈ T.flatMap fun t => List.replicate k t) : b ∈ T := by
  rcases List.mem_flatMap.mp hb with ⟨t, ht, hbt⟩
  rw [List.eq_of_mem_replicate hbt]
  exact ht

theorem uniqueAux_flatMap_replicate {k : Nat} (hk : 0 < k) :
    ∀ {T seen : List Nat}, T.Nodup → (∀ t ∈ T, t ∉ seen) →
      uniqueAux seen (T.flatMap fun t => List.replicate k t) = T := by
  intro T
  induction T with
  | nil => intro seen _ _; rfl
  | cons a T ih =>
      intro seen hnd hs
      have ha : a ∉ seen := hs a (List.mem_cons_self a T)
      rw [List.flatMap_cons]
      obtain ⟨j, rfl⟩ : ∃ j, k = j + 1 := ⟨k - 1, by omega⟩
      have hcons : uniqueAux seen (a :: (List.replicate j a
          ++ T.flatMap fun t => List.replicate (j + 1) t))
          = a :: uniqueAux (a :: seen) (List.replicate j a
            ++ T.flatMap fun t => List.replicate (j + 1) t) := by
        simp only [uniqueAux, if_neg ha]
      rw [List.replicate_succ, List.cons_append, hcons,
        uniqueAux_replicate_mem (List.mem_cons_self a seen)]
      congr 1
      refine ih (List.Nodup.of_cons hnd) fun t ht => ?_
      intro hts
      rcases List.mem_cons.mp hts with rfl | hts
      · exact (List.nodup_cons.mp hnd).1 ht
      · exact hs t (List.mem_cons_of_mem a ht) hts

theorem uniqueList_flatMap_replicate {T : List Nat} {k : Nat} (hnd : T.Nodup) (hk : 0 < k) :
    uniqueList (T.flatMap fun t => List.replicate k t) = T :=
  uniqueAux_flatMap_replicate hk hnd (by simp)

theorem mem_flatten_replicate {W : List Nat} {n : Nat} {b : Nat}
    (hb : b ∈ (List.replicate n W).flatten) : b ∈ W := by
  rcases List.mem_flatten.mp hb with ⟨l, hl, hbl⟩
  rw [List.eq_of_mem_replicate hl] at hbl
  exact hbl

theorem uniqueList_flatten_replicate {W : List Nat} {n : Nat} (hnd : W.Nodup) (hn : 0 < n) :
    uniqueList ((List.replicate n W).flatten) = W := by
  obtain ⟨j, rfl⟩ : ∃ j, n = j + 1 := ⟨n - 1, by omega⟩
  rw [List.replicate_succ, List.flatten_cons]
  unfold uniqueList
  rw [uniqueAux_append_of_subset fun b hb => Or.inl (mem_flatten_replicate hb)]
  exact uniqueList_of_nodup hnd

theorem length_flatMap_replicate (T : List Nat) (k : Nat) :
    (T.flatMap fun t => List.replicate k t).length = T.length * k := by
  induction T with
  | nil => simp
  | cons a T ih => simp [List.flatMap_cons, ih]; ring

theorem length_flatten_replicate (n : Nat) (W : List Nat) :
    ((List.replicate n W).flatten).length = n * W.length := by
  induction n with
  | zero => simp
  | succ n ih => simp [List.replicate_succ, ih]; ring

theorem zipWith3_proj :
    ∀ (A B C : List Nat), A.length = B.length → A.length = C.length →
      (List.zipWith3 Sample.mk A B C).map Sample.time = A ∧
      (List.zipWith3 Sample.mk A B C).map Sample.wavelength = B ∧
      (List.zipWith3 Sample.mk A B C).map Sample.intensity = C
  | [], [], [], _, _ => by simp [List.zipWith3]
  | [], b :: B, _, hB, _ => by simp at hB
  | [], [], c :: C, _, hC => by simp at hC
  | a :: A, [], _, hB, _ => by simp at hB
  | a :: A, b :: B, [], _, hC => by simp at hC
  | a :: A, b :: B, c :: C, hB, hC => by
      simp only [List.length_cons, Nat.add_right_cancel_iff] at hB hC
      have ih := zipWith3_proj A B C hB hC
      simp only [List.zipWith3, List.map_cons]
      exact ⟨by rw [ih.1], by rw [ih.2.1], by rw [ih.2.2]⟩

theorem length_padZ {n : Nat} {l : List Nat} (h : l.length ≤ n) : (padZ n l).length = n := by
  simp only [padZ, List.length_append, List.length_replicate]
  omega

theorem padZ_of_length_eq {n : Nat} {l : List Nat} (h : l.length = n) : padZ n l = l := by
  simp [padZ, h]

theorem read_file_to_raw_binary (s : List Sample) (hdr m1 m2 m3 m4 : List Nat)
    (hh : hdr.length = 64)
    (h1 : lineWF m1) (h2 : lineWF m2) (h3 : lineWF m3) (h4 : lineWF m4)
    (hIb : ∀ v ∈ s.map Sample.intensity, v < 2 ^ 16)
    (hIl : s.length ≤ 307200)
    (hWb : ∀ v ∈ uniqueList (s.map Sample.wavelength), v < 2 ^ 32)
    (hWl : (uniqueList (s.map Sample.wavelength)).length ≤ 640)
    (hTb : ∀ v ∈ uniqueList (s.map Sample.time), v < 2 ^ 32)
    (hTl : (uniqueList (s.map Sample.time)).length ≤ 480) :
    read_file (TRPLData.to_raw_binary ⟨s, hdr, [m1, m2, m3, m4]⟩)
      = some ⟨gridSamples (padZ 480 (uniqueList (s.map Sample.time)))
          (padZ 640 (uniqueList (s.map Sample.wavelength)))
          (padZ 307200 (s.map Sample.intensity)), hdr, [m1, m2, m3, m4]⟩ := by
  have hIlen : (s.map Sample.intensity).length ≤ 307200 := by simpa using hIl
  set I := s.map Sample.intensity with hIdef
  set uW := uniqueList (s.map Sample.wavelength) with hWdef
  set uT := uniqueList (s.map Sample.time) with hTdef
  set A := ljustTrunc (sector_size * num_sector_intensity) (I.flatMap u16bytes) with hA
  set B := ljustTrunc (sector_size * num_sector_wavelength) (uW.flatMap f32bytes) with hB
  set C := ljustTrunc (sector_size * num_sector_time) (uT.flatMap f32bytes) with hC
  have hALen : A.length = sector_size * num_sector_intensity := length_ljustTrunc _ _
  have hBLen : B.length = sector_size * num_sector_wavelength := length_ljustTrunc _ _
  have hCLen : C.length = sector_size * num_sector_time := length_ljustTrunc _ _
  have hstream : TRPLData.to_raw_binary ⟨s, hdr, [m1, m2, m3, m4]⟩
      = hdr ++ (m1 ++ (m2 ++ (m3 ++ (m4 ++ (A ++ (B ++ C)))))) := by
    simp only [TRPLData.to_raw_binary, TRPLData.intensity, TRPLData.wavelength, TRPLData.time,
      ← hIdef, ← hWdef, ← hTdef, ← hA, ← hB, ← hC]
    simp [List.append_assoc]
  -- decoding of the three binary blocks
  have hbI : bytesToU16 A = padZ 307200 I := by
    have hflat : (I.flatMap u16bytes).length = 2 * I.length := length_flatMap_u16 I
    have hle : (I.flatMap u16bytes).length ≤ sector_size * num_sector_intensity := by
      rw [hflat]
      simp only [sector_size, num_sector_intensity]
      omega
    rw [hA, ljustTrunc_of_le hle]
    rw [bytesToU16_append _ _ ⟨I.length, hflat⟩, bytesToU16_flatMap hIb]
    have hpad : sector_size * num_sector_intensity - (I.flatMap u16bytes).length
        = 2 * (307200 - I.length) := by
      rw [hflat]
      simp only [sector_size, num_sector_intensity]
      omega
    rw [hpad, bytesToU16_replicate]
    rfl
  have hbW : (bytesToF32 B).take wavelength_resolution = padZ 640 uW := by
    have hflat : (uW.flatMap f32bytes).length = 4 * uW.length := length_flatMap_f32 uW
    have hle : (uW.flatMap f32bytes).length ≤ sector_size * num_sector_wavelength := by
      rw [hflat]
      simp only [sector_size, num_sector_wavelength]
      omega
    rw [hB, ljustTrunc_of_le hle]
    rw [bytesToF32_append _ _ ⟨uW.length, hflat⟩, bytesToF32_flatMap hWb]
    have hpad : sector_size * num_sector_wavelength - (uW.flatMap f32bytes).length
        = 4 * (1024 - uW.length) := by
      rw [hflat]
      simp only [sector_size, num_sector_wavelength]
      omega
    rw [hpad, bytesToF32_replicate]
    rw [take_append_replicate 0 (by simpa [wavelength_resolution] using hWl)
      (by simp only [wavelength_resolution]; omega)]
    rfl
  have hbT : (bytesToF32 C).take time_resolution = padZ 480 uT := by
    have hflat : (uT.flatMap f32bytes).length = 4 * uT.length := length_flatMap_f32 uT
    have hle : (uT.flatMap f32bytes).length ≤ sector_size * num_sector_time := by
      rw [hflat]
      simp only [sector_size, num_sector_time]
      omega
    rw [hC, ljustTrunc_of_le hle]
    rw [bytesToF32_append _ _ ⟨uT.length, hflat⟩, bytesToF32_flatMap hTb]
    have hpad : sector_size * num_sector_time - (uT.flatMap f32bytes).length
        = 4 * (1024 - uT.length) := by
      rw [hflat]
      simp only [sector_size, num_sector_time]
      omega
    rw [hpad, bytesToF32_replicate]
    rw [take_append_replicate 0 (by simpa [time_resolution] using hTl)
      (by simp only [time_resolution]; omega)]
    rfl
  rw [hstream]
  unfold read_file
  simp only [List.take_left' hh, List.drop_left' hh,
    readLine_append _ h1, readLine_append _ h2, readLine_append _ h3, readLine_append _ h4,
    List.take_left' hALen, List.drop_left' hALen, List.take_left' hBLen, List.drop_left' hBLen]
  have eC : List.take (sector_size * num_sector_time) C = C := by
    rw [← hCLen]
    exact List.take_length C
  rw [eC]
  have hcond : 2 ∣ A.length ∧ 4 ∣ B.length ∧ 4 ∣ C.length := by
    rw [hALen, hBLen, hCLen]
    refine ⟨⟨sector_size * num_sector_intensity / 2, by decide⟩,
      ⟨sector_size * num_sector_wavelength / 4, by decide⟩,
      ⟨sector_size * num_sector_time / 4, by decide⟩⟩
  rw [if_pos hcond, hbI, hbW, hbT]
  have hlenT : (padZ 480 uT).length = 480 := length_padZ hTl
  have hlenW : (padZ 640 uW).length = 640 := length_padZ hWl
  have hlenI : (padZ 307200 I).length = 307200 := length_padZ hIlen
  have hcond2 : ((padZ 480 uT).flatMap fun t => List.replicate (padZ 640 uW).length t).length
        = (padZ 307200 I).length
      ∧ ((List.replicate (padZ 480 uT).length (padZ 640 uW)).flatten).length
        = (padZ 307200 I).length := by
    rw [length_flatMap_replicate, length_flatten_replicate, hlenT, hlenW, hlenI]
    exact ⟨rfl, rfl⟩
  rw [if_pos hcond2]
  rfl

theorem length_gridSamples {T W I : List Nat} (h : I.length = T.length * W.length) :
    (gridSamples T W I).length = I.length := by
  have hA : (T.flatMap fun t => List.replicate W.length t).length = T.length * W.length :=
    length_flatMap_replicate T W.length
  have hB : ((List.replicate T.length W).flatten).length = T.length * W.length :=
    length_flatten_replicate T.length W
  have hproj := zipWith3_proj (T.flatMap fun t => List.replicate W.length t)
    ((List.replicate T.length W).flatten) I (by rw [hA, hB]) (by rw [hA, h])
  calc (gridSamples T W I).length
      = ((gridSamples T W I).map Sample.intensity).length := by rw [List.length_map]
    _ = I.length := by rw [gridSamples, hproj.2.2]

theorem gridSamples_proj {T W I : List Nat} (h : I.length = T.length * W.length) :
    (gridSamples T W I).map Sample.time = (T.flatMap fun t => List.replicate W.length t) ∧
    (gridSamples T W I).map Sample.wavelength = (List.replicate T.length W).flatten ∧
    (gridSamples T W I).map Sample.intensity = I := by
  have hA : (T.flatMap fun t => List.replicate W.length t).length = T.length * W.length :=
    length_flatMap_replicate T W.length
  have hB : ((List.replicate T.length W).flatten).length = T.length * W.length :=
    length_flatten_replicate T.length W
  exact zipWith3_proj _ _ _ (by rw [hA, hB]) (by rw [hA, h])

/-- C1 (amended): the round trip `Decode(Encode(d)) = d` holds for datasets of
exactly full capacity in canonical grid order: 480 distinct time words and 640
distinct wavelength words (each a 32-bit pattern), a complete 480 x 640
row-major intensity column of `uint16` values, a 64-byte header and four
newline-terminated metadata lines.  The decoder always rebuilds a full
480 x 640 grid, so datasets with fewer distinct values come back zero-padded
rather than equal (see the counterexample). -/
theorem C1_roundtrip_amended (T W I hdr m1 m2 m3 m4 : List Nat)
    (hTnd : T.Nodup) (hWnd : W.Nodup)
    (hTlen : T.length = 480) (hWlen : W.length = 640) (hIlen : I.length = 307200)
    (hTb : ∀ v ∈ T, v < 2 ^ 32) (hWb : ∀ v ∈ W, v < 2 ^ 32) (hIb : ∀ v ∈ I, v < 2 ^ 16)
    (hh : hdr.length = 64)
    (h1 : lineWF m1) (h2 : lineWF m2) (h3 : lineWF m3) (h4 : lineWF m4) :
    read_file (TRPLData.to_raw_binary ⟨gridSamples T W I, hdr, [m1, m2, m3, m4]⟩)
      = some ⟨gridSamples T W I, hdr, [m1, m2, m3, m4]⟩ := by
  have hprod : I.length = T.length * W.length := by rw [hTlen, hWlen, hIlen]
  have hproj := gridSamples_proj hprod
  have hulT : uniqueList ((gridSamples T W I).map Sample.time) = T := by
    rw [hproj.1]
    exact uniqueList_flatMap_replicate hTnd (by omega)
  have hulW : uniqueList ((gridSamples T W I).map Sample.wavelength) = W := by
    rw [hproj.2.1]
    exact uniqueList_flatten_replicate hWnd (by omega)
  have hlen : (gridSamples T W I).length = 307200 := by rw [length_gridSamples hprod, hIlen]
  have h := read_file_to_raw_binary (gridSamples T W I) hdr m1 m2 m3 m4 hh h1 h2 h3 h4
    (by rw [hproj.2.2]; exact hIb)
    (by omega)
    (by rw [hulW]; exact hWb)
    (by rw [hulW, hWlen])
    (by rw [hulT]; exact hTb)
    (by rw [hulT, hTlen])
  rw [h, hulT, hulW, hproj.2.2]
  rw [padZ_of_length_eq (by rw [hTlen]), padZ_of_length_eq (by rw [hWlen]),
    padZ_of_length_eq (by rw [hIlen])]

/-- C1 (witness): the amended round trip evaluated at a concrete full-capacity
dataset. -/
theorem C1_roundtrip_witness :
    read_file (TRPLData.to_raw_binary witnessData) = some witnessData := by
  have h := C1_roundtrip_amended axis480 axis640 flat307200
    (List.replicate 64 0) [10] [10] [10] [10]
    (List.nodup_range 480)
    ((List.nodup_range 640).map fun a b hab => by omega)
    (by unfold axis480; simp only [List.length_range])
    (by unfold axis640; simp only [List.length_map, List.length_range])
    (by unfold flat307200; simp only [List.length_replicate])
    (fun v hv => by
      have : v < 480 := List.mem_range.mp hv
      omega)
    (fun v hv => by
      obtain ⟨i, hi, rfl⟩ := List.mem_map.mp hv
      have : i < 640 := List.mem_range.mp hi
      omega)
    (fun v hv => by
      rw [List.eq_of_mem_replicate hv]
      omega)
    (by simp only [List.length_replicate])
    ⟨[], rfl, by simp⟩ ⟨[], rfl, by simp⟩ ⟨[], rfl, by simp⟩ ⟨[], rfl, by simp⟩
  exact h

/-- C1 (counterexample): the claim quantifies over every dataset with at most
480 distinct times and at most 640 distinct wavelengths, but for the concrete
3-by-3 dataset (3 distinct times, 3 distinct wavelengths) the decoder rebuilds
a full 480 x 640 grid of 307200 samples, so the decoded dataset does not
compare equal to the original (the structural comparison in fact raises on
the shape mismatch). -/
theorem C1_roundtrip_counterexample :
    (read_file (TRPLData.to_raw_binary exampleData)).map
      (fun o => TRPLData.eq o exampleData) ≠ some (Except.ok true) := by
  have h := read_file_to_raw_binary (gridSamples [0, 5, 10] [400, 450, 500] exampleIntensities)
    (List.replicate 64 0) [10] [10] [10] [10]
    (by simp)
    ⟨[], rfl, by simp⟩ ⟨[], rfl, by simp⟩ ⟨[], rfl, by simp⟩ ⟨[], rfl, by simp⟩
    (by decide) (by decide) (by decide) (by decide) (by decide) (by decide)
  have hulT : uniqueList ((gridSamples [0, 5, 10] [400, 450, 500]
      exampleIntensities).map Sample.time) = [0, 5, 10] := by decide
  have hulW : uniqueList ((gridSamples [0, 5, 10] [400, 450, 500]
      exampleIntensities).map Sample.wavelength) = [400, 450, 500] := by decide
  have hmapI : (gridSamples [0, 5, 10] [400, 450, 500] exampleIntensities).map
      Sample.intensity = exampleIntensities := by decide
  rw [hulT, hulW, hmapI] at h
  have hbig : (gridSamples (padZ 480 [0, 5, 10]) (padZ 640 [400, 450, 500])
      (padZ 307200 exampleIntensities)).length = 307200 := by
    have hT : (padZ 480 [0, 5, 10]).length = 480 := length_padZ (by decide)
    have hW : (padZ 640 [400, 450, 500]).length = 640 := length_padZ (by decide)
    have hI : (padZ 307200 exampleIntensities).length = 307200 := length_padZ (by decide)
    rw [length_gridSamples (by rw [hT, hW, hI]), hI]
  have hsmall : exampleData.samples.length = 9 := by decide
  show (read_file (TRPLData.to_raw_binary exampleData)).map
      (fun o => TRPLData.eq o exampleData) ≠ some (Except.ok true)
  have hexp : TRPLData.to_raw_binary exampleData = TRPLData.to_raw_binary
      ⟨gridSamples [0, 5, 10] [400, 450, 500] exampleIntensities,
        List.replicate 64 0, [[10], [10], [10], [10]]⟩ := rfl
  rw [hexp, h]
  intro hc
  rw [Option.map_some'] at hc
  have hc2 := Option.some.inj hc
  unfold TRPLData.eq at hc2
  rw [if_neg (by rw [hbig, hsmall]; omega)] at hc2
  exact Except.noConfusion hc2

theorem flatten_chunkRows {w : Nat} :
    ∀ (t : Nat) (l : List Nat), l.length = t * w → (chunkRows w t l).flatten = l
  | 0, l, h => by
      rw [Nat.zero_mul] at h
      rw [List.length_eq_zero.mp h]
      rfl
  | t + 1, l, h => by
      have hw : w ≤ l.length := by rw [h, Nat.succ_mul]; omega
      have hdrop : (l.drop w).length = t * w := by
        rw [List.length_drop, h, Nat.succ_mul]
        omega
      simp only [chunkRows, List.flatten_cons]
      rw [flatten_chunkRows t (l.drop w) hdrop, List.take_append_drop]

theorem length_chunkRows {w : Nat} : ∀ (t : Nat) (l : List Nat), (chunkRows w t l).length = t
  | 0, _ => rfl
  | t + 1, l => by
      simp only [chunkRows, List.length_cons]
      rw [length_chunkRows t]

theorem rows_chunkRows {w : Nat} :
    ∀ (t : Nat) (l : List Nat), l.length = t * w →
      ∀ row ∈ chunkRows w t l, row.length = w
  | 0, l, h => by intro row hrow; exact absurd hrow (by simp [chunkRows])
  | t + 1, l, h => by
      intro row hrow
      have hw : w ≤ l.length := by rw [h, Nat.succ_mul]; omega
      have hdrop : (l.drop w).length = t * w := by
        rw [List.length_drop, h, Nat.succ_mul]
        omega
      rcases List.mem_cons.mp hrow with rfl | hrow
      · rw [List.length_take]
        omega
      · exact rows_chunkRows t (l.drop w) hdrop row hrow

/-- C2: `to_streak_image` succeeds exactly when the sample count equals
distinct-time-count times distinct-wavelength-count, in which case the grid
has that shape and flattens to the intensity column sorted by
(time ascending, wavelength ascending); and on the concrete 3-by-3 scenario
of the spec it returns [[44, 47, 64], [67, 67, 9], [83, 21, 36]]. -/
theorem C2_streak_image :
    (∀ d : TRPLData,
      (d.to_streak_image.isSome ↔
        d.samples.length = (uniqueList d.time).length * (uniqueList d.wavelength).length) ∧
      ∀ g, d.to_streak_image = some g →
        g.length = (uniqueList d.time).length ∧
        (∀ row ∈ g, row.length = (uniqueList d.wavelength).length) ∧
        g.flatten = (List.insertionSort sampleLE d.samples).map Sample.intensity) ∧
    exampleData.to_streak_image = some [[44, 47, 64], [67, 67, 9], [83, 21, 36]] := by
  constructor
  · intro d
    have hsortlen : ((List.insertionSort sampleLE d.samples).map Sample.intensity).length
        = d.samples.length := by
      rw [List.length_map]
      exact (List.perm_insertionSort sampleLE d.samples).length_eq
    constructor
    · unfold TRPLData.to_streak_image
      by_cases hc : ((List.insertionSort sampleLE d.samples).map Sample.intensity).length
          = (uniqueList d.time).length * (uniqueList d.wavelength).length
      · rw [if_pos hc]
        simp only [Option.isSome_some, true_iff]
        rw [← hsortlen]
        exact hc
      · rw [if_neg hc]
        simp only [Option.isSome_none, Bool.false_eq_true, false_iff]
        rw [← hsortlen]
        exact hc
    · intro g hg
      unfold TRPLData.to_streak_image at hg
      by_cases hc : ((List.insertionSort sampleLE d.samples).map Sample.intensity).length
          = (uniqueList d.time).length * (uniqueList d.wavelength).length
      · rw [if_pos hc] at hg
        have hg2 := Option.some.inj hg
        subst hg2
        exact ⟨length_chunkRows _ _, rows_chunkRows _ _ hc, flatten_chunkRows _ _ hc⟩
      · rw [if_neg hc] at hg
        exact Option.noConfusion hg
  · decide

/-- C2 (witness): the structural characterization applied to the concrete
3-by-3 dataset. -/
theorem C2_streak_image_witness :
    exampleData.to_streak_image.isSome ∧
    ([[44, 47, 64], [67, 67, 9], [83, 21, 36]] : List (List Nat)).flatten
      = (List.insertionSort sampleLE exampleData.samples).map Sample.intensity :=
  ⟨((C2_streak_image.1 exampleData).1).mpr (by decide),
    ((C2_streak_image.1 exampleData).2 _ C2_streak_image.2).2.2⟩

/-- C8 (amended): dataset comparison is structural exactly as claimed when the
two sample tables have the same row count: it returns true precisely when the
tables, headers and metadata all match, and false otherwise.  When the row
counts differ, however, the elementwise frame comparison raises instead of
returning false (see the counterexample). -/
theorem C8_eq_amended (a b : TRPLData) :
    (a.samples.length = b.samples.length →
      ((TRPLData.eq a b = Except.ok true ↔
          (a.samples = b.samples ∧ a.header = b.header ∧ a.metadata = b.metadata)) ∧
       (TRPLData.eq a b = Except.ok false ↔
          ¬(a.samples = b.samples ∧ a.header = b.header ∧ a.metadata = b.metadata)))) ∧
    (a.samples.length ≠ b.samples.length → ∃ e, TRPLData.eq a b = Except.error e) := by
  constructor
  · intro h
    unfold TRPLData.eq
    rw [if_pos h]
    constructor
    · simp [and_assoc]
    · simp [and_assoc, Decidable.not_and_iff_or_not, or_assoc]
  · intro h
    unfold TRPLData.eq
    rw [if_neg h]
    exact ⟨_, rfl⟩

/-- C8 (witness): structural equality evaluated on a same-shape pair. -/
theorem C8_eq_witness : TRPLData.eq exampleData exampleData = Except.ok true :=
  ((C8_eq_amended exampleData exampleData).1 rfl).1.mpr ⟨rfl, rfl, rfl⟩

/-- C8 (counterexample): comparing the 9-sample dataset with a 1-sample
dataset returns neither true nor false: the claim says the comparison returns
false rather than failing in every non-matching case, but the code raises on
the shape mismatch. -/
theorem C8_eq_counterexample :
    (TRPLData.eq exampleData smallData).toOption = none := by
  decide

/-- C3: the shared validator rejects exactly mismatched-length or empty
inputs, and the analysis functions `find_scdc`, `determine_fit_range_dc` and
`curve_fit` run it first — but `find_peaks` never invokes it: on the
mismatched input xdata = [1], ydata = [], where the claim demands a
validation error before any analysis, the validation stage of `find_peaks`
succeeds and the body reaches the spline construction. -/
theorem C3_find_peaks_no_validation :
    (∀ xdata ydata : List ℚ,
      validate_xdata_and_ydata xdata ydata = Except.ok () ↔
        (xdata.length = ydata.length ∧ xdata ≠ [])) ∧
    find_peaks_validation [1] [] = Except.ok () ∧
    validate_xdata_and_ydata [1] []
      = Except.error "The length of `xdata` and `ydata` must be the same" ∧
    find_scdc_validation [1] []
      = Except.error "The length of `xdata` and `ydata` must be the same" ∧
    determine_fit_range_dc_validation [1] []
      = Except.error "The length of `xdata` and `ydata` must be the same" ∧
    curve_fit_validation [1] []
      = Except.error "The length of `xdata` and `ydata` must be the same" := by
  refine ⟨?_, rfl, rfl, rfl, rfl, rfl⟩
  intro xdata ydata
  unfold validate_xdata_and_ydata
  by_cases hlen : xdata.length = ydata.length
  · rw [if_neg (by simpa using hlen)]
    by_cases hemp : xdata.length = 0 ∨ ydata.length = 0
    · rw [if_pos hemp]
      constructor
      · intro hc
        exact Except.noConfusion hc
      · intro hc
        have : xdata.length ≠ 0 := by
          intro h0
          exact hc.2 (List.length_eq_zero.mp h0)
        omega
    · rw [if_neg hemp]
      push_neg at hemp
      exact iff_of_true rfl ⟨hlen, fun h => hemp.1 (by rw [h]; rfl)⟩
  · rw [if_pos (by simpa using hlen)]
    constructor
    · intro hc
      exact Except.noConfusion hc
    · intro hc
      exact absurd hc.1 hlen

/-- C7 helper fact: the resampled grid has the full 1000 points. -/
theorem grid1000_length : grid1000.length = 1000 := by
  unfold grid1000
  rw [List.length_map, List.length_range]

set_option maxRecDepth 100000 in
/-- C7: the half-width fallback for `x1` is broken: with no root at or right
of the peak position, `_idx` equals the root count, which is smaller than the
grid length, so the code indexes `_roots[_idx]` out of range and raises
IndexError instead of falling back to the domain maximum.  Evaluated at the
failing input of an empty root list (a curve whose spline never crosses the
half level, such as y = 10 + exp(-x^2)) over the 1000-point grid. -/
theorem C7_peak_half_bounds_failure :
    peak_half_bounds [] grid1000 500
      = Except.error "IndexError: list index out of range" ∧
    grid1000.length = 1000 :=
  ⟨by with_unfolding_all rfl, grid1000_length⟩

/-- C10: `find_scdc` can fail on validated input: whenever the final
selection (positions before the argmax of y whose value lies below the
baseline) is empty, the numpy reduction raises; concretely, for x = [0, 1]
and y = [5, 1] the global maximum sits at position 0, the selection is
necessarily empty, and the function raises even though both sequences are
nonempty and of equal length. -/
theorem C10_find_scdc_failure :
    (∀ (x y : List ℚ) (w : Nat) (k : ℚ),
      validate_xdata_and_ydata x y = Except.ok () →
      scdcIndex x y w k = none →
      find_scdc x y w k
        = Except.error "zero-size array to reduction operation maximum which has no identity") ∧
    validate_xdata_and_ydata [0, 1] [5, 1] = Except.ok () ∧
    argmaxIdx [5, 1] = 0 ∧
    find_scdc [0, 1] [5, 1] 10 2
      = Except.error "zero-size array to reduction operation maximum which has no identity" := by
  refine ⟨?_, rfl, by with_unfolding_all rfl, by with_unfolding_all rfl⟩
  intro x y w k hv hs
  unfold find_scdc
  rw [hv, hs]

/-- C10 (witness): the general failure statement applied to the concrete
input. -/
theorem C10_find_scdc_failure_witness :
    find_scdc [0, 1] [5, 1] 10 2
      = Except.error "zero-size array to reduction operation maximum which has no identity" :=
  C10_find_scdc_failure.1 [0, 1] [5, 1] 10 2 rfl (by with_unfolding_all rfl)

/-- C4 (counterexample): with window 2 and k = 0 on x = [0, 1, 2, 3],
y = [0, 10, 11, 0], the code's background (the mask compares each sample
against the noise ceiling at its own position, one step after the shift)
keeps only sample 0, while the claim's indexing — y[r+1] compared against
noise_ceiling[r] — would keep samples 0 and 1. -/
theorem C4_scdc_background_counterexample :
    backgroundIdx [0, 1, 2, 3] [0, 10, 11, 0] 2 0 = [0] ∧
    backgroundIdx_spec [0, 1, 2, 3] [0, 10, 11, 0] 2 0 = [0, 1] := by
  with_unfolding_all decide

/-- C5 (counterexample): on the resampled curve x = [0, ..., 5],
y = [0, 0, 5, 1, 0, 0] the maximum sits at position 2, so the claim's
`left = x[argmax - 2]` would give x[0] = 0; the code's
`shift(2).argmax()` instead lands two positions later and gives x[4] = 4. -/
theorem C5_fit_range_left_counterexample :
    fit_range_left [0, 1, 2, 3, 4, 5] [0, 0, 5, 1, 0, 0] = some 4 ∧
    fit_range_left_spec [0, 1, 2, 3, 4, 5] [0, 0, 5, 1, 0, 0] = some 0 ∧
    argmaxIdx [0, 0, 5, 1, 0, 0] = 2 := by
  with_unfolding_all decide

/-- C6 (counterexample): the window 1/4 is positive and x = [1, 2, 3] is
nonempty, yet `smooth` raises: the ratio branch computes the integer window
`int(3 * 1/4) = 0` and pandas rejects `rolling(0, min_periods=1)`, so no
same-length sequence is returned. -/
theorem C6_smooth_counterexample :
    (smooth [1, 2, 3] (1 / 4)).toOption = none ∧
    (0 : ℚ) < 1 / 4 ∧ ([(1 : ℚ), 2, 3] : List ℚ) ≠ [] := by
  refine ⟨by with_unfolding_all decide, by norm_num, by simp⟩

theorem listMaxD_cons (a b : ℚ) (t : List ℚ) :
    listMaxD (a :: b :: t) = max a (listMaxD (b :: t)) := rfl

theorem le_listMaxD : ∀ {l : List ℚ}, ∀ a ∈ l, a ≤ listMaxD l
  | [], a, ha => absurd ha (List.not_mem_nil a)
  | [b], a, ha => by
      rcases List.mem_cons.mp ha with rfl | ha
      · exact le_refl a
      · exact absurd ha (List.not_mem_nil a)
  | b :: c :: t, a, ha => by
      rw [listMaxD_cons]
      rcases List.mem_cons.mp ha with rfl | ha
      · exact le_max_left _ _
      · exact le_trans (le_listMaxD a ha) (le_max_right _ _)

theorem listMaxD_mem : ∀ {l : List ℚ}, l ≠ [] → listMaxD l ∈ l
  | [], h => absurd rfl h
  | [a], _ => List.mem_cons_self _ _
  | a :: b :: t, _ => by
      rw [listMaxD_cons]
      rcases max_cases a (listMaxD (b :: t)) with ⟨h, _⟩ | ⟨h, _⟩
      · rw [h]
        exact List.mem_cons_self _ _
      · rw [h]
        exact List.mem_cons_of_mem a (listMaxD_mem (by simp))

theorem argmaxIdx_lt : ∀ {l : List ℚ}, l ≠ [] → argmaxIdx l < l.length
  | [], h => absurd rfl h
  | [a], _ => by simp [argmaxIdx]
  | a :: b :: t, _ => by
      rw [argmaxIdx]
      by_cases hc : listMaxD (b :: t) ≤ a
      · rw [if_pos hc]
        simp
      · rw [if_neg hc]
        have ih := argmaxIdx_lt (l := b :: t) (by simp)
        simp only [List.length_cons] at ih ⊢
        omega

theorem getD_argmaxIdx : ∀ {l : List ℚ}, l ≠ [] → l.getD (argmaxIdx l) 0 = listMaxD l
  | [], h => absurd rfl h
  | [a], _ => by simp [argmaxIdx, listMaxD]
  | a :: b :: t, _ => by
      by_cases hc : listMaxD (b :: t) ≤ a
      · rw [show argmaxIdx (a :: b :: t) = 0 by rw [argmaxIdx, if_pos hc]]
        rw [List.getD_cons_zero, listMaxD_cons]
        exact (max_eq_left hc).symm
      · rw [show argmaxIdx (a :: b :: t) = argmaxIdx (b :: t) + 1 by rw [argmaxIdx, if_neg hc]]
        rw [List.getD_cons_succ, listMaxD_cons]
        rw [getD_argmaxIdx (l := b :: t) (by simp)]
        exact (max_eq_right (le_of_not_le hc)).symm

theorem getD_lt_of_lt_argmaxIdx :
    ∀ {l : List ℚ}, ∀ j, j < argmaxIdx l → l.getD j 0 < listMaxD l
  | [], j, hj => by simp [argmaxIdx] at hj
  | [a], j, hj => by simp [argmaxIdx] at hj
  | a :: b :: t, j, hj => by
      by_cases hc : listMaxD (b :: t) ≤ a
      · rw [argmaxIdx, if_pos hc] at hj
        omega
      · rw [argmaxIdx, if_neg hc] at hj
        push_neg at hc
        match j with
        | 0 =>
            rw [List.getD_cons_zero, listMaxD_cons]
            exact lt_max_iff.mpr (Or.inr hc)
        | j' + 1 =>
            have ih := getD_lt_of_lt_argmaxIdx (l := b :: t) j' (by omega)
            rw [List.getD_cons_succ, listMaxD_cons]
            exact lt_of_lt_of_le ih (le_max_right _ _)

theorem argmaxIdx_eq_of {l : List ℚ} {j : Nat} (hj : j < l.length)
    (hmax : ∀ i, i < l.length → l.getD i 0 ≤ l.getD j 0)
    (hfirst : ∀ i, i < j → l.getD i 0 < l.getD j 0) :
    argmaxIdx l = j := by
  have hne : l ≠ [] := by
    intro h
    subst h
    simp at hj
  have hMl : listMaxD l = l.getD j 0 := by
    refine le_antisymm ?_ ?_
    · obtain ⟨i, hi, hgi⟩ := List.mem_iff_getElem.mp (listMaxD_mem hne)
      rw [← hgi, ← List.getD_eq_getElem l 0 hi]
      exact hmax i hi
    · rw [List.getD_eq_getElem l 0 hj]
      exact le_listMaxD _ (List.getElem_mem hj)
  rcases lt_trichotomy (argmaxIdx l) j with h | h | h
  · have h1 := hfirst _ h
    rw [getD_argmaxIdx hne, hMl] at h1
    exact absurd h1 (lt_irrefl _)
  · exact h
  · have h1 := getD_lt_of_lt_argmaxIdx j h
    rw [hMl] at h1
    exact absurd h1 (lt_irrefl _)

theorem getD_take_eq {y : List ℚ} {m i : Nat} (hi : i < m) :
    (y.take m).getD i 0 = y.getD i 0 := by
  rw [List.getD_eq_getElem?_getD, List.getD_eq_getElem?_getD, List.getElem?_take, if_pos hi]

theorem argmax_take {y : List ℚ} {m : Nat} (hm : argmaxIdx y < m) (hmy : m ≤ y.length) :
    argmaxIdx (y.take m) = argmaxIdx y ∧ listMaxD (y.take m) = listMaxD y := by
  have hne : y ≠ [] := by
    intro h
    subst h
    simp at hmy
    omega
  have hJ : argmaxIdx y < y.length := argmaxIdx_lt hne
  have hlen : (y.take m).length = m := by
    rw [List.length_take]
    omega
  have h1 : argmaxIdx (y.take m) = argmaxIdx y := by
    refine argmaxIdx_eq_of (by omega) ?_ ?_
    · intro i hi
      rw [hlen] at hi
      rw [getD_take_eq hi, getD_take_eq hm, getD_argmaxIdx hne]
      have him : i < y.length := by omega
      rw [List.getD_eq_getElem y 0 him]
      exact le_listMaxD _ (List.getElem_mem him)
    · intro i hi
      rw [getD_take_eq (by omega), getD_take_eq hm, getD_argmaxIdx hne]
      exact getD_lt_of_lt_argmaxIdx i hi
  refine ⟨h1, ?_⟩
  have hne2 : y.take m ≠ [] := by
    intro h
    have := congrArg List.length h
    rw [hlen] at this
    simp at this
    omega
  rw [← getD_argmaxIdx hne2, h1, getD_take_eq hm, getD_argmaxIdx hne]

theorem length_shiftOpt (m : Nat) (y : List ℚ) : (shiftOpt m y).length = y.length := by
  unfold shiftOpt
  rw [List.length_take, List.length_append, List.length_replicate, List.length_map]
  omega

theorem shiftOpt_eq {y : List ℚ} (h : 2 ≤ y.length) :
    shiftOpt 2 y = List.replicate 2 none ++ (y.take (y.length - 2)).map some := by
  unfold shiftOpt
  rw [List.map_take]
  obtain ⟨i, hi⟩ : ∃ i, y.length = 2 + i := ⟨y.length - 2, by omega⟩
  rw [hi]
  rw [show 2 + i - 2 = i by omega]
  rw [show (2 : Nat) + i = (List.replicate 2 (none : Option ℚ)).length + i by
    rw [List.length_replicate]]
  rw [List.take_append]

theorem optMax_replicate_none_append (m : Nat) (t : List (Option ℚ)) :
    optMax (List.replicate m none ++ t) = optMax t := by
  induction m with
  | zero => rfl
  | succ m ih =>
      rw [List.replicate_succ, List.cons_append]
      exact ih

theorem optMax_some_cons (a : ℚ) (t : List (Option ℚ)) :
    optMax (some a :: t) = match optMax t with
      | none => some a
      | some b => some (max a b) := rfl

theorem optMax_map_some : ∀ {l : List ℚ}, l ≠ [] → optMax (l.map some) = some (listMaxD l)
  | [], h => absurd rfl h
  | [a], _ => rfl
  | a :: b :: t, _ => by
      rw [List.map_cons, optMax_some_cons, optMax_map_some (l := b :: t) (by simp),
        listMaxD_cons]

theorem idxOfFirst_eq {p : Option ℚ → Bool} :
    ∀ {l : List (Option ℚ)} {j : Nat}, j < l.length →
      p (l.getD j none) = true → (∀ i, i < j → p (l.getD i none) = false) →
      idxOfFirst p l = j
  | [], j, hj, _, _ => by simp at hj
  | a :: t, 0, _, hp, _ => by
      rw [List.getD_cons_zero] at hp
      rw [idxOfFirst, if_pos hp]
  | a :: t, j + 1, hj, hp, hlt => by
      have ha : p a = false := by
        have h0 := hlt 0 (by omega)
        rwa [List.getD_cons_zero] at h0
      rw [idxOfFirst, if_neg (by rw [ha]; exact Bool.false_ne_true)]
      congr 1
      refine idxOfFirst_eq (by simpa using hj) ?_ ?_
      · rwa [List.getD_cons_succ] at hp
      · intro i hi
        have h0 := hlt (i + 1) (by omega)
        rwa [List.getD_cons_succ] at h0

theorem getD_append_right' {α : Type} (l1 l2 : List α) (i : Nat) (d : α) :
    (l1 ++ l2).getD (l1.length + i) d = l2.getD i d := by
  induction l1 with
  | nil => simp
  | cons a t ih =>
      rw [List.length_cons, List.cons_append]
      rw [show t.length + 1 + i = (t.length + i) + 1 by omega]
      rw [List.getD_cons_succ]
      exact ih

theorem getD_map_some_of_lt {u : List ℚ} {j : Nat} (hj : j < u.length) :
    (u.map some).getD j none = some (u.getD j 0) := by
  rw [List.getD_eq_getElem?_getD, List.getElem?_map,
    List.getElem?_eq_getElem hj, List.getD_eq_getElem u 0 hj]
  rfl

/-- C5 (amended): on the resampled spline curve, the left fit bound is the
x-coordinate two index positions AFTER the resampled maximum (not before, as
claimed), provided the maximum occurs before the final two resampled points
(the generic situation for a decay curve; otherwise the shifted series loses
the maximum entirely): left = x[argmax(y_resampled) + 2]. -/
theorem C5_fit_range_left_amended (x y : List ℚ) (hmax : argmaxIdx y + 2 < y.length) :
    fit_range_left x y = some (x.getD (argmaxIdx y + 2) 0) := by
  have hy3 : 3 ≤ y.length := by omega
  have hu_ne : y.take (y.length - 2) ≠ [] := by
    intro h
    have hc := congrArg List.length h
    rw [List.length_take] at hc
    simp at hc
    omega
  have hu_len : (y.take (y.length - 2)).length = y.length - 2 := by
    rw [List.length_take]
    omega
  have htake := argmax_take (y := y) (m := y.length - 2) (by omega) (by omega)
  have hsplit : shiftOpt 2 y
      = List.replicate 2 none ++ (y.take (y.length - 2)).map some := shiftOpt_eq (by omega)
  have hopt : optMax (shiftOpt 2 y) = some (listMaxD (y.take (y.length - 2))) := by
    rw [hsplit, optMax_replicate_none_append, optMax_map_some hu_ne]
  have hJu : argmaxIdx (y.take (y.length - 2)) = argmaxIdx y := htake.1
  have hJu_lt : argmaxIdx (y.take (y.length - 2)) < (y.take (y.length - 2)).length := by
    rw [hJu, hu_len]
    omega
  have hgetJ : (shiftOpt 2 y).getD (argmaxIdx y + 2) none
      = some ((y.take (y.length - 2)).getD (argmaxIdx y) 0) := by
    rw [hsplit]
    have h2 : argmaxIdx y + 2
        = (List.replicate 2 (none : Option ℚ)).length + argmaxIdx y := by
      rw [List.length_replicate]
      omega
    rw [h2, getD_append_right']
    exact getD_map_some_of_lt (by rw [hu_len]; omega)
  have hidx : argmaxOptIdx (shiftOpt 2 y) = argmaxIdx y + 2 := by
    unfold argmaxOptIdx
    refine idxOfFirst_eq (by rw [length_shiftOpt]; omega) ?_ ?_
    · rw [hgetJ, hopt]
      have heq : (y.take (y.length - 2)).getD (argmaxIdx y) 0
          = listMaxD (y.take (y.length - 2)) := by
        rw [← hJu]
        exact getD_argmaxIdx hu_ne
      rw [heq]
      simp
    · intro i hi
      match i, hi with
      | 0, _ =>
          have hnone : (shiftOpt 2 y).getD 0 none = none := by
            rw [hsplit]
            rfl
          rw [hnone]
          simp
      | 1, _ =>
          have hnone : (shiftOpt 2 y).getD 1 none = none := by
            rw [hsplit]
            rfl
          rw [hnone]
          simp
      | i' + 2, hi =>
          have hlt : i' < argmaxIdx y := by omega
          have hget : (shiftOpt 2 y).getD (i' + 2) none
              = some ((y.take (y.length - 2)).getD i' 0) := by
            rw [hsplit]
            have h2 : i' + 2 = (List.replicate 2 (none : Option ℚ)).length + i' := by
              rw [List.length_replicate]
              omega
            rw [h2, getD_append_right']
            exact getD_map_some_of_lt (by rw [hu_len]; omega)
          rw [hget, hopt]
          have hne2 : (y.take (y.length - 2)).getD i' 0
              ≠ listMaxD (y.take (y.length - 2)) :=
            ne_of_lt (getD_lt_of_lt_argmaxIdx i' (by rw [hJu]; exact hlt))
          simp only [Option.some.injEq, ne_eq, Bool.and_eq_false_iff,
            decide_eq_false_iff_not]
          exact Or.inl hne2
  simp only [fit_range_left]
  rw [hopt, hidx]

/-- C5 (witness): the amended left-bound formula evaluated at a concrete
resampled curve with interior maximum. -/
theorem C5_fit_range_left_witness :
    fit_range_left [0, 1, 2, 3, 4, 5] [0, 0, 5, 1, 0, 0]
      = some (List.getD [0, 1, 2, 3, 4, 5] (argmaxIdx [0, 0, 5, 1, 0, 0] + 2) 0) :=
  C5_fit_range_left_amended [0, 1, 2, 3, 4, 5] [0, 0, 5, 1, 0, 0]
    (by with_unfolding_all decide)

instance : Std.Antisymm fun x1 x2 : ℚ => x1 ≤ x2 :=
  ⟨fun h1 h2 => le_antisymm h1 h2⟩

theorem min?_eq_some_of {l : List ℚ} {a : ℚ} (ha : a ∈ l) (hmin : ∀ b ∈ l, a ≤ b) :
    l.min? = some a := by
  rw [List.min?_eq_some_iff (fun a => le_refl a) (fun a b => min_choice a b)
    (fun a b c => le_min_iff)]
  exact ⟨ha, hmin⟩

/-- C4 (amended): the code's background segment is delimited by the crossing
`y[r+1] > noise_ceiling[r+1]` — the lookahead sample is compared against the
noise ceiling at ITS OWN position, not at the current one as the claim's
`noise_ceiling[r]` says.  Precisely: for x strictly ascending, with `r` the
earliest position whose following sample exceeds its own noise ceiling, the
background consists of all samples with x ≤ x[r]. -/
theorem C4_scdc_background_amended (x y : List ℚ) (w : Nat) (k : ℚ)
    (hlen : x.length = y.length) (hs : List.Sorted (· < ·) x)
    (r : Nat) (hr : r < y.length)
    (hm : exceedsNoiseCeil w k y (r + 1) (r + 1) = true)
    (hmin : ∀ i, i < r → exceedsNoiseCeil w k y (i + 1) (i + 1) = false) :
    backgroundIdx x y w k
      = (List.range y.length).filter fun i => decide (x.getD i 0 ≤ x.getD r 0) := by
  have hxmin : selectedXmin x y w k = some (x.getD r 0) := by
    unfold selectedXmin
    apply min?_eq_some_of
    · exact List.mem_map.mpr ⟨r, List.mem_filter.mpr ⟨List.mem_range.mpr hr, hm⟩, rfl⟩
    · intro b hb
      obtain ⟨i, hiS, rfl⟩ := List.mem_map.mp hb
      obtain ⟨hiR, hiM⟩ := List.mem_filter.mp hiS
      have hin : i < y.length := List.mem_range.mp hiR
      have hri : r ≤ i := by
        by_contra hlt
        push_neg at hlt
        rw [hmin i hlt] at hiM
        exact Bool.false_ne_true hiM
      rcases eq_or_lt_of_le hri with rfl | hlt
      · exact le_refl _
      · have hgl := List.pairwise_iff_getElem.mp hs r i (by omega) (by omega) hlt
        rw [List.getD_eq_getElem x 0 (by omega), List.getD_eq_getElem x 0 (by omega)]
        exact le_of_lt hgl
  unfold backgroundIdx
  rw [hxmin]

/-- C4 (witness): the amended background delimitation evaluated at the
concrete curve of the counterexample, whose first crossing sits at r = 0. -/
theorem C4_scdc_background_witness :
    backgroundIdx [0, 1, 2, 3] [0, 10, 11, 0] 2 0
      = (List.range ([(0 : ℚ), 10, 11, 0] : List ℚ).length).filter
          (fun i => decide (List.getD [(0 : ℚ), 1, 2, 3] i 0
            ≤ List.getD [(0 : ℚ), 1, 2, 3] 0 0)) :=
  C4_scdc_background_amended [0, 1, 2, 3] [0, 10, 11, 0] 2 0 rfl
    (by with_unfolding_all decide) 0 (by with_unfolding_all decide)
    (by with_unfolding_all decide) (fun i hi => absurd hi (Nat.not_lt_zero i))

/-- C9: whenever the final selection of `find_scdc` yields a position i, that
position lies strictly before the argmax of y, its y value lies strictly
below the (necessarily present) baseline, i is the largest such position
before the argmax, and for strictly ascending x the returned x precedes the
x of the curve's global maximum. -/
theorem C9_scdc_index (x y : List ℚ) (w : Nat) (k : ℚ) (i : Nat)
    (hi : scdcIndex x y w k = some i) :
    i < argmaxIdx y ∧
    (∃ b, scdcBaseline x y w k = some b ∧ y.getD i 0 < b) ∧
    (∀ j, j < y.length → j < argmaxIdx y →
      (∀ b, scdcBaseline x y w k = some b → y.getD j 0 < b) → j ≤ i) ∧
    (List.Sorted (· < ·) x → y.length = x.length →
      x.getD i 0 < x.getD (argmaxIdx y) 0) := by
  unfold scdcIndex at hi
  cases hb : scdcBaseline x y w k with
  | none =>
      rw [hb] at hi
      simp only [Bool.and_false, List.filter_false] at hi
      exact absurd hi (by simp)
  | some b =>
      rw [hb] at hi
      obtain ⟨hmem, hmax⟩ := List.max?_eq_some_iff'.mp hi
      obtain ⟨hiR, hiP⟩ := List.mem_filter.mp hmem
      have hin : i < y.length := List.mem_range.mp hiR
      rw [Bool.and_eq_true, decide_eq_true_eq, decide_eq_true_eq] at hiP
      refine ⟨hiP.1, ⟨b, rfl, hiP.2⟩, ?_, ?_⟩
      · intro j hjn hja hjb
        apply hmax
        refine List.mem_filter.mpr ⟨List.mem_range.mpr hjn, ?_⟩
        rw [Bool.and_eq_true, decide_eq_true_eq, decide_eq_true_eq]
        exact ⟨hja, hjb b rfl⟩
      · intro hsx hxy
        have hyne : y ≠ [] := by
          intro h
          subst h
          simp at hin
        have hargLt : argmaxIdx y < y.length := argmaxIdx_lt hyne
        have hgl := List.pairwise_iff_getElem.mp hsx i (argmaxIdx y)
          (by omega) (by omega) hiP.1
        rw [List.getD_eq_getElem x 0 (by omega), List.getD_eq_getElem x 0 (by omega)]
        exact hgl

/-- C9 (witness): the invariants evaluated at a concrete decaying-then-rising
curve where `find_scdc` succeeds with start position 2. -/
theorem C9_scdc_index_witness :
    2 < argmaxIdx [2, 2, 0, 3, 20] ∧
    List.getD [(0 : ℚ), 1, 2, 3, 4] 2 0
      < List.getD [(0 : ℚ), 1, 2, 3, 4] (argmaxIdx [2, 2, 0, 3, 20]) 0 :=
  ⟨(C9_scdc_index [0, 1, 2, 3, 4] [2, 2, 0, 3, 20] 2 0 2
      (by with_unfolding_all decide)).1,
   (C9_scdc_index [0, 1, 2, 3, 4] [2, 2, 0, 3, 20] 2 0 2
      (by with_unfolding_all decide)).2.2.2 (by with_unfolding_all decide) rfl⟩

theorem getD_map_range (f : Nat → ℚ) {n i : Nat} (hi : i < n) :
    ((List.range n).map f).getD i 0 = f i := by
  rw [List.getD_eq_getElem?_getD, List.getElem?_map, List.getElem?_range hi]
  rfl

/-- C6 (amended): `smooth` returns a same-length sequence whose every entry is
the mean over however many samples of the centered window actually fall
inside the sequence (no padding, no NaN) whenever the EFFECTIVE integer
window is at least one sample — which holds for every window ≥ 1 but fails
for small positive fractional windows, where `int(len(x) * window) = 0` makes
pandas reject the rolling call (see the counterexample). -/
theorem C6_smooth_amended (x : List ℚ) (window : ℚ)
    (h0 : ¬ window < 0) (h1 : 1 ≤ effWindow x.length window) :
    ∃ y, smooth x window = Except.ok y ∧ y.length = x.length ∧
      ∀ i, i < x.length →
        windowAt (effWindow x.length window).toNat x
          (i + ((effWindow x.length window).toNat - 1) / 2) ≠ [] ∧
        y.getD i 0 = listMean (windowAt (effWindow x.length window).toNat x
          (i + ((effWindow x.length window).toNat - 1) / 2)) := by
  refine ⟨(List.range x.length).map fun i =>
      rollingCenterMeanAt (effWindow x.length window).toNat x i, ?_, ?_, ?_⟩
  · simp only [smooth]
    rw [if_neg h0, if_neg (by omega)]
  · rw [List.length_map, List.length_range]
  · intro i hi
    have hw1 : 1 ≤ (effWindow x.length window).toNat := by omega
    constructor
    · intro hcon
      have hclen := congrArg List.length hcon
      unfold windowAt at hclen
      rw [List.length_drop, List.length_take, List.length_nil] at hclen
      have hdiv : ((effWindow x.length window).toNat - 1) / 2
          ≤ (effWindow x.length window).toNat - 1 := Nat.div_le_self _ _
      omega
    · rw [getD_map_range _ hi]
      rfl

/-- C6 (witness): the amended smoothing contract evaluated at a concrete
four-point sequence with window 3. -/
theorem C6_smooth_witness :
    ∃ y, smooth [1, 2, 3, 4] 3 = Except.ok y ∧
      y.length = ([(1 : ℚ), 2, 3, 4] : List ℚ).length ∧
      ∀ i, i < ([(1 : ℚ), 2, 3, 4] : List ℚ).length →
        windowAt (effWindow ([(1 : ℚ), 2, 3, 4] : List ℚ).length 3).toNat [1, 2, 3, 4]
          (i + ((effWindow ([(1 : ℚ), 2, 3, 4] : List ℚ).length 3).toNat - 1) / 2) ≠ [] ∧
        y.getD i 0 = listMean (windowAt
          (effWindow ([(1 : ℚ), 2, 3, 4] : List ℚ).length 3).toNat [1, 2, 3, 4]
          (i + ((effWindow ([(1 : ℚ), 2, 3, 4] : List ℚ).length 3).toNat - 1) / 2)) :=
  C6_smooth_amended [1, 2, 3, 4] 3 (by norm_num) (by with_unfolding_all decide)

end Tlab
